import Mathlib

/-!
Shallow embedding of the AI-Coding-Agent core: the runner's patch engine
(`apps/runner/src/tools/patch.ts`), verification pipeline
(`apps/runner/src/tools/verify.ts`), risk scorer (`tools/risk.ts`),
and the Supabase edge-function handlers for patches
(`supabase/functions/patches/index.ts`) and the runner protocol
(`supabase/functions/runner/index.ts`).

Strings are Lean `String`s; filesystem paths are embedded as parsed segment
lists; timestamps, event payload timestamps and process durations (wall-clock
data) are not modelled. External collaborators (the `diff` npm library's
`applyPatch`, the spawned verification process) are modelled as explicit
function parameters, mirroring how the source treats them as black boxes.
-/

namespace AgentCore

/-! ## String helpers (JS `startsWith` / `endsWith` / `includes`) -/

/-- JS `s.startsWith(p)`. -/
def strStartsWith (p s : String) : Bool := p.toList.isPrefixOf s.toList

/-- JS `s.endsWith(p)`. -/
def strEndsWith (p s : String) : Bool := p.toList.isSuffixOf s.toList

/-- Occurrence of `sub` as a contiguous sublist. -/
def listContainsSub (sub : List Char) : List Char → Bool
  | [] => sub.isPrefixOf ([] : List Char)
  | c :: rest => sub.isPrefixOf (c :: rest) || listContainsSub sub rest

/-- JS `s.includes(sub)`. -/
def strContains (sub s : String) : Bool := listContainsSub sub.toList s.toList

/-- JS `s.toLowerCase()`: `Char.toLower` over the characters (identical to
`String.toLower`, stated over the character list so it evaluates
structurally). -/
def strToLower (s : String) : String := String.mk (s.toList.map Char.toLower)

/-! ## Path model (Node `path.resolve` / `path.relative` / `path.join`)

A filesystem path is embedded as an absolute/relative flag plus the list of
`/`-separated segments of the raw string. -/

structure FsPath where
  absolute : Bool
  segs : List String
deriving DecidableEq, Repr

/-- Rebuild the raw input string of a path (used in error messages). -/
def FsPath.raw (p : FsPath) : String :=
  (if p.absolute then "/" else "") ++ String.intercalate "/" p.segs

/-- Normalisation of an absolute path's segments: drop empty and `.` segments,
let `..` pop the previous segment (at the root, `..` stays at the root, as in
Node's `resolve`). -/
def normalizeSegs (segs : List String) : List String :=
  segs.foldl
    (fun acc s =>
      if s = "" ∨ s = "." then acc
      else if s = ".." then acc.dropLast
      else acc ++ [s])
    []

/-- Node `path.resolve(repoPath, p)` with an absolute, already-normalised
repository root: an absolute `p` replaces the root, a relative `p` is appended,
and the result is normalised. Result is the segment list of an absolute path. -/
def resolveSegs (repoSegs : List String) (p : FsPath) : List String :=
  if p.absolute then normalizeSegs p.segs else normalizeSegs (repoSegs ++ p.segs)

/-- Node `path.join(repoPath, p)`: concatenation then normalisation. -/
def joinSegs (repoSegs : List String) (p : FsPath) : List String :=
  normalizeSegs (repoSegs ++ p.segs)

/-- Node `path.relative(base, target)` on normalised absolute segment lists:
walk off the non-shared part of the base with `..` segments, then down into
the target. -/
def relativeSegs : List String → List String → List String
  | [], ts => ts
  | b :: bs, [] => List.replicate (b :: bs).length ".."
  | b :: bs, t :: ts =>
    if b = t then relativeSegs bs ts
    else List.replicate (b :: bs).length ".." ++ (t :: ts)

/-- The joined string of an absolute segment list (leading `/`). -/
def absString (segs : List String) : String :=
  "/" ++ String.intercalate "/" segs

/-- JS `relativePath.startsWith("..")` on the joined relative string.  Since
`/` follows the first segment, the joined string starts with `".."` exactly
when the first segment does. -/
def relStartsWithDotDot : List String → Bool
  | [] => false
  | s :: _ => strStartsWith ".." s

/-- Node `path.extname` on a raw path string: the suffix of the basename from
its last `.`, empty for dotfiles (`.env`) and names without a dot. -/
def extname (p : FsPath) : String :=
  let base := (p.segs.getLast?.getD "").toList
  let afterDot := base.reverse.takeWhile (· ≠ '.')
  if afterDot.length + 1 < base.length then
    String.mk ('.' :: afterDot.reverse)
  else ""

/-! ## Runner configuration (`apps/runner/src/config.ts`) -/

structure PatchConstraints where
  maxFilesChanged : Nat
  maxDiffLines : Nat
  pathDenylist : List String
  binaryExtensions : List String
deriving Repr

structure RunnerConfig where
  /-- Segments of the normalised absolute repository root (`config.repoPath`). -/
  repoSegs : List String
  patchConstraints : PatchConstraints
deriving Repr

/-! ## Path validation (`tools/patch.ts`, `validatePath`) -/

structure PathCheck where
  valid : Bool
  error : Option String
deriving DecidableEq, Repr

/-- Embedding of `validatePath` from `apps/runner/src/tools/patch.ts`:
resolve against the repo root, reject path traversal, then the denylist
(exact / prefix / embedded / suffix segment match on the relative string),
then binary extensions. -/
def validatePath (cfg : RunnerConfig) (filePath : FsPath) : PathCheck :=
  let absolutePath := resolveSegs cfg.repoSegs filePath
  let rel := relativeSegs cfg.repoSegs absolutePath
  if relStartsWithDotDot rel
      || !(strStartsWith (absString cfg.repoSegs) (absString absolutePath)) then
    { valid := false, error := some ("Path traversal detected: " ++ filePath.raw) }
  else
    let relativePath := String.intercalate "/" rel
    match cfg.patchConstraints.pathDenylist.find? (fun denied =>
        relativePath = denied
          || strStartsWith (denied ++ "/") relativePath
          || strContains ("/" ++ denied ++ "/") relativePath
          || strEndsWith ("/" ++ denied) relativePath) with
    | some denied =>
      { valid := false
        error := some ("Path is in denylist: " ++ filePath.raw ++ " (matches " ++ denied ++ ")") }
    | none =>
      let ext := strToLower (extname filePath)
      if cfg.patchConstraints.binaryExtensions.contains ext then
        { valid := false, error := some ("Binary file not allowed: " ++ filePath.raw) }
      else
        { valid := true, error := none }

/-! ## Patch validation (`tools/patch.ts`, `validatePatch`) -/

structure PatchFile where
  path : FsPath
  additions : Nat
  deletions : Nat
  /-- Lines of the file's diff text, i.e. `file.diff.split('\n')`. -/
  diffLines : List String
deriving DecidableEq, Repr

structure ValidationResult where
  valid : Bool
  errors : List String
  warnings : List String
deriving DecidableEq, Repr

/-- One step of `validatePatch`'s per-file loop: accumulated
(errors, warnings, total line count). -/
def validatePatchStep (cfg : RunnerConfig)
    (acc : List String × List String × Nat) (file : PatchFile) :
    List String × List String × Nat :=
  let lines := file.diffLines.length
  let errs :=
    match validatePath cfg file.path with
    | { valid := false, error := e } => acc.1 ++ [e.getD ""]
    | _ => acc.1
  let warns :=
    if lines > 200 then
      acc.2.1 ++ ["Large diff for " ++ file.path.raw ++ ": " ++ toString lines ++ " lines"]
    else acc.2.1
  (errs, warns, acc.2.2 + lines)

/-- Embedding of `validatePatch` from `apps/runner/src/tools/patch.ts`. -/
def validatePatch (cfg : RunnerConfig) (files : List PatchFile) : ValidationResult :=
  let countErrors :=
    if files.length > cfg.patchConstraints.maxFilesChanged then
      ["Too many files changed: " ++ toString files.length ++ " > "
        ++ toString cfg.patchConstraints.maxFilesChanged]
    else []
  let loop := files.foldl (validatePatchStep cfg) (countErrors, [], 0)
  let errors :=
    if loop.2.2 > cfg.patchConstraints.maxDiffLines then
      loop.1 ++ ["Total diff too large: " ++ toString loop.2.2 ++ " > "
        ++ toString cfg.patchConstraints.maxDiffLines ++ " lines"]
    else loop.1
  { valid := errors.isEmpty, errors := errors, warnings := loop.2.1 }

/-! ## Patch application (`tools/patch.ts`, `applyDiff`)

The `diff` npm library's `parsePatch` output is the input here: a list of
per-file patches.  Its `applyPatch` (hunk application against current file
content) is an external collaborator and is passed in as a function
`applyHunks`; `none` models its `false` result (base content drifted). -/

structure Hunk where
  lines : List String
deriving DecidableEq, Repr

structure FilePatch where
  oldFileName : Option FsPath
  newFileName : Option FsPath
  hunks : List Hunk
deriving DecidableEq, Repr

/-- JS regex `replace(/^[ab]\//, '')` on a path: strip a leading `a/` or `b/`
segment of a relative path. -/
def stripAB (p : FsPath) : FsPath :=
  if !p.absolute ∧ (p.segs.head? = some "a" ∨ p.segs.head? = some "b") then
    { absolute := false, segs := p.segs.tail }
  else p

/-- JS falsiness of the stripped path string (`|| ''` / `if (!newPath)`):
missing, or present but empty. -/
def pathMissing : Option FsPath → Bool
  | none => true
  | some p => !p.absolute && p.segs.isEmpty

/-- The literal string `'/dev/null'` as a path. -/
def isDevNull : Option FsPath → Bool
  | some p => p.absolute && p.segs = ["dev", "null"]
  | none => false

/-- Filesystem model: association list from absolute path segments to file
content.  Writes overwrite in place or append a new entry. -/
abbrev Fs := List (List String × String)

def fsRead (fs : Fs) (key : List String) : Option String :=
  (List.find? (fun e => e.1 = key) fs).map (·.2)

def fsWrite (fs : Fs) (key : List String) (content : String) : Fs :=
  if (List.find? (fun e => e.1 = key) fs).isSome then
    List.map (fun e => if e.1 = key then (key, content) else e) fs
  else fs ++ [(key, content)]

/-- Content of a newly created file: all `+` lines of all hunks, joined with
newlines (`applyDiff`'s new-file branch). -/
def newFileContent (hunks : List Hunk) : String :=
  String.intercalate "\n"
    (hunks.flatMap fun h => (h.lines.filter (strStartsWith "+")).map (·.drop 1))

/-- Outcome of one iteration of `applyDiff`'s per-file loop:
written-file count, errors, warnings, and the updated filesystem. -/
def applyFileStep (cfg : RunnerConfig) (applyHunks : String → FilePatch → Option String)
    (fs : Fs) (patch : FilePatch) : (Nat × List String × List String) × Fs :=
  let oldPath := patch.oldFileName.map stripAB
  let newPath := patch.newFileName.map stripAB
  if pathMissing newPath then
    ((0, ["Missing file path in patch"], []), fs)
  else
    let np := (newPath.getD { absolute := false, segs := [] })
    let fullPath := joinSegs cfg.repoSegs np
    if isDevNull oldPath || pathMissing oldPath then
      ((1, [], []), fsWrite fs fullPath (newFileContent patch.hunks))
    else if isDevNull newPath then
      ((0, [], ["File deletion requested but skipped for safety: "
        ++ (oldPath.getD { absolute := false, segs := [] }).raw]), fs)
    else
      match fsRead fs fullPath with
      | none => ((0, ["File not found: " ++ np.raw], []), fs)
      | some original =>
        match applyHunks original patch with
        | none =>
          ((0, ["Failed to apply patch to " ++ np.raw ++ " - content may have changed"], []), fs)
        | some patched => ((1, [], []), fsWrite fs fullPath patched)

/-- The per-file loop of `applyDiff`: files are processed in order; each
file's outcome is accumulated and processing continues past failures. -/
def applyLoop (cfg : RunnerConfig) (applyHunks : String → FilePatch → Option String) :
    List FilePatch → Fs → (Nat × List String × List String) × Fs
  | [], fs => ((0, [], []), fs)
  | p :: rest, fs =>
    let step := applyFileStep cfg applyHunks fs p
    let tail := applyLoop cfg applyHunks rest step.2
    ((step.1.1 + tail.1.1, step.1.2.1 ++ tail.1.2.1, step.1.2.2 ++ tail.1.2.2), tail.2)

structure ApplyResult where
  success : Bool
  filesAffected : Nat
  errors : List String
  warnings : List String
deriving DecidableEq, Repr

/-- One step of `applyDiff`'s pre-validation pass: `validatePath` over the
stripped target path (empty paths are skipped, `if (!file.path) continue`). -/
def applyPreStep (cfg : RunnerConfig) (errs : List String) (p : FilePatch) :
    List String :=
  let path := p.newFileName.map stripAB
  if pathMissing path then errs
  else
    match validatePath cfg (path.getD { absolute := false, segs := [] }) with
    | { valid := false, error := e } => errs ++ [e.getD ""]
    | _ => errs

/-- Pre-validation pass of `applyDiff` over all files of the diff. -/
def applyPreErrors (cfg : RunnerConfig) (patches : List FilePatch) : List String :=
  patches.foldl (applyPreStep cfg) []

/-- Embedding of `applyDiff` from `apps/runner/src/tools/patch.ts`: if any
target path fails validation nothing is applied; otherwise the per-file loop
runs and `success` holds exactly when no error was recorded. -/
def applyDiff (cfg : RunnerConfig) (applyHunks : String → FilePatch → Option String)
    (fs : Fs) (patches : List FilePatch) : ApplyResult × Fs :=
  let preErrors := applyPreErrors cfg patches
  if !preErrors.isEmpty then
    ({ success := false, filesAffected := 0, errors := preErrors, warnings := [] }, fs)
  else
    let loop := applyLoop cfg applyHunks patches fs
    ({ success := loop.1.2.1.isEmpty, filesAffected := loop.1.1
       errors := loop.1.2.1, warnings := loop.1.2.2 }, loop.2)

/-! ## Verification pipeline (`tools/verify.ts`) -/

structure CommandConfig where
  command : String
  args : List String
  description : String
deriving DecidableEq, Repr

/-- Project environment inspected by command detection: the manifest's
`scripts` map, whether `tsconfig.json` exists, and the detected package
manager. -/
structure PkgEnv where
  scripts : List (String × String)
  hasTsConfig : Bool
  packageManager : String
deriving Repr

/-- JS `pkgScripts.name` as a truthy string (absent and empty are falsy). -/
def scriptOf (env : PkgEnv) (name : String) : Option String :=
  match (env.scripts.find? (·.1 = name)).map (·.2) with
  | some s => if s = "" then none else some s
  | none => none

/-- Embedding of `getPackageManagerCommands` from
`apps/runner/src/tools/verify.ts`: a `typecheck`/`type-check` script, falling
back to `npx tsc --noEmit` when only `tsconfig.json` exists; a `test` script
unless it is npm's placeholder, with `--run` appended for vitest. -/
def getPackageManagerCommands (env : PkgEnv) :
    Option CommandConfig × Option CommandConfig :=
  let typecheck :=
    if (scriptOf env "typecheck").isSome then
      some { command := env.packageManager, args := ["run", "typecheck"]
             description := "Type checking" }
    else if (scriptOf env "type-check").isSome then
      some { command := env.packageManager, args := ["run", "type-check"]
             description := "Type checking" }
    else if env.hasTsConfig then
      some { command := "npx", args := ["tsc", "--noEmit"], description := "TypeScript check" }
    else none
  let test :=
    match scriptOf env "test" with
    | some t =>
      if t ≠ "echo \x22Error: no test specified\x22 && exit 1" then
        some { command := env.packageManager
               args := if strContains "vitest" t then ["test", "--", "--run"] else ["test"]
               description := "Tests" }
      else none
    | none => none
  (typecheck, test)

structure VerifyResult where
  command : String
  exitCode : Int
  passed : Bool
deriving DecidableEq, Repr

/-- Embedding of `runVerifyCommand`: the spawned process is the function
`exec`, returning the `close` code (`none` models a `null` code or a launch
error, both of which the source resolves as failure).  The source computes
`exitCode = code ?? 1` and `passed = exitCode === 0`; durations are wall-clock
and not modelled. -/
def runVerifyCommand (exec : CommandConfig → Option Int) (c : CommandConfig) :
    VerifyResult :=
  let exitCode := (exec c).getD 1
  { command := (c.command ++ " " ++ String.intercalate " " c.args).trim
    exitCode := exitCode
    passed := exitCode = 0 }

/-- Embedding of `runVerification`: the typecheck command (if detected) runs,
then the test command (if detected) runs — unconditionally, regardless of the
typecheck outcome — and `passed` requires a nonempty result list with every
command passing. -/
def runVerification (env : PkgEnv) (exec : CommandConfig → Option Int) :
    Bool × List VerifyResult :=
  let commands := getPackageManagerCommands env
  let results :=
    (match commands.1 with
      | some tc => [runVerifyCommand exec tc]
      | none => [])
    ++ (match commands.2 with
      | some t => [runVerifyCommand exec t]
      | none => [])
  (results.length > 0 && results.all (·.passed), results)

/-- Run statuses of the lifecycle (`runs.status`). -/
inductive RunStatus
  | queued | running | verifying | awaiting_approval | approved
  | applying | completed | failed | cancelled
deriving DecidableEq, Repr

/-- The status `executeRun` persists after verification
(`apps/runner/src/runner.ts`, phase 3): `awaiting_approval` when verification
passed, `failed` otherwise. -/
def statusAfterVerification (passed : Bool) : RunStatus :=
  if passed then .awaiting_approval else .failed

/-! ## Risk scorer (`tools/risk.ts`, `assessRisk`) -/

inductive Severity
  | low | medium | high
deriving DecidableEq, Repr

structure RiskFactor where
  reason : String
  severity : Severity
deriving DecidableEq, Repr

structure RiskAssessment where
  score : Severity
  factors : List RiskFactor
deriving DecidableEq, Repr

structure RiskFile where
  path : String
  additions : Nat
  deletions : Nat
deriving DecidableEq, Repr

def CRITICAL_PATHS : List String :=
  ["auth", "security", "api", "database", "config", ".env", "middleware", "hooks/use-auth"]

def destructiveKeywords : List String := ["delete", "remove", "reset", "drop", "wipe"]

/-- The changed-line-count checks of `assessRisk` (risk.ts lines 45–53),
verbatim: `if (totalLines > 100) {...+2} else if (totalLines > 300) {...+4}`. -/
def sizeCheck (totalLines : Nat) : Nat × List RiskFactor :=
  if totalLines > 100 then
    (2, [{ reason := "Large diff size (" ++ toString totalLines ++ " lines)"
           severity := .medium }])
  else if totalLines > 300 then
    (4, [{ reason := "Very large diff size (" ++ toString totalLines ++ " lines)"
           severity := .high }])
  else (0, [])

/-- Risk points and factors accumulated by `assessRisk`, in source order:
file count, total changed lines, critical paths, destructive task keywords. -/
def assessRiskPoints (files : List RiskFile) (task : String) :
    Nat × List RiskFactor :=
  let fileCount :=
    if files.length > 5 then
      (2, [{ reason := "Large number of files changed (" ++ toString files.length ++ ")"
             severity := Severity.medium }])
    else ((0 : Nat), ([] : List RiskFactor))
  let totalLines := files.foldl (fun s f => s + f.additions + f.deletions) 0
  let size := sizeCheck totalLines
  let involved := files.filter (fun f =>
    CRITICAL_PATHS.any (fun cp => strContains cp (strToLower f.path)))
  let critical :=
    if involved.length > 0 then
      (5, [{ reason := "Affects critical paths: "
               ++ String.intercalate ", " ((involved.map (·.path)).take 2)
             severity := Severity.high }])
    else ((0 : Nat), ([] : List RiskFactor))
  let destructive :=
    if destructiveKeywords.any (fun kw => strContains kw (strToLower task)) then
      (2, [{ reason := "Task contains potentially destructive keywords"
             severity := Severity.medium }])
    else ((0 : Nat), ([] : List RiskFactor))
  (fileCount.1 + size.1 + critical.1 + destructive.1,
    fileCount.2 ++ size.2 ++ critical.2 ++ destructive.2)

/-- Embedding of `assessRisk` from the risk tool: band the points into a
score and synthesise the fallback factor when none fired. -/
def assessRisk (files : List RiskFile) (task : String) : RiskAssessment :=
  let acc := assessRiskPoints files task
  let score : Severity :=
    if acc.1 ≥ 7 then .high else if acc.1 ≥ 3 then .medium else .low
  { score := score
    factors :=
      if acc.2.isEmpty then
        [{ reason := "Minor implementation change", severity := .low }]
      else acc.2 }

/-! ## Log flushing (`tools/verify.ts`, `flushLogs`)

The buffered log string is embedded as a `List Char`; the chunk-splitting
loop of `flushLogs` is `splitChunks`.  The emitted chunks are posted in order
as `VERIFY_LOG` events. -/

def MAX_CHUNK_SIZE : Nat := 1024

/-- JS `remaining.lastIndexOf('\n', k)`: the greatest index `i ≤ k` holding a
newline, `none` for `-1`. -/
def lastNlIdx (l : List Char) (k : Nat) : Option Nat :=
  (List.range (k + 1)).reverse.find? (fun i => l.get? i = some '\n')

/-- The chunking loop of `flushLogs`: while more than `MAX_CHUNK_SIZE`
characters remain, split after the last newline at index ≤ `MAX_CHUNK_SIZE`
(hard-split after index `MAX_CHUNK_SIZE` when there is none); a nonempty
final remainder becomes the last chunk. -/
def splitChunks (l : List Char) : List (List Char) :=
  if h : l.length > MAX_CHUNK_SIZE then
    let sp := (lastNlIdx l MAX_CHUNK_SIZE).getD MAX_CHUNK_SIZE
    l.take (sp + 1) :: splitChunks (l.drop (sp + 1))
  else if l.isEmpty then [] else [l]
termination_by l.length
decreasing_by
  simp only [List.length_drop]
  omega

/-! ## Edge function: patches (`supabase/functions/patches/index.ts`) -/

/-- The edge function's hard-coded `CONSTRAINTS`. -/
def EDGE_MAX_FILES : Nat := 10
def EDGE_MAX_DIFF_LINES : Nat := 300
def EDGE_PATH_DENYLIST : List String :=
  [".env", ".env.local", ".env.production", "secrets", "node_modules", "dist",
   "build", ".git", "package-lock.json", "bun.lockb", "yarn.lock", "pnpm-lock.yaml"]
def EDGE_BINARY_EXTENSIONS : List String :=
  [".png", ".jpg", ".jpeg", ".gif", ".ico", ".woff", ".woff2", ".ttf", ".eot", ".pdf", ".zip"]

/-- A file-change record as stored on a patch (`files_changed`). -/
structure EdgeFileChange where
  path : String
  additions : Nat
  deletions : Nat
deriving DecidableEq, Repr

/-- Embedding of the edge function's `validatePatch`: file count, per-file
denylist substring match and binary-extension suffix match, sensitive-path
warnings, and the total of `additions + deletions`. -/
def edgeValidatePatch (filesChanged : List EdgeFileChange) : ValidationResult :=
  let countErrors :=
    if filesChanged.length > EDGE_MAX_FILES then
      ["Too many files changed: " ++ toString filesChanged.length ++ " > "
        ++ toString EDGE_MAX_FILES]
    else []
  let loop := filesChanged.foldl
    (fun (acc : List String × List String × Nat) file =>
      let denyErrs := (EDGE_PATH_DENYLIST.filter (fun d => strContains d file.path)).map
        (fun d => "Forbidden path: " ++ file.path ++ " matches denylist pattern \x22" ++ d ++ "\x22")
      let binErrs := (EDGE_BINARY_EXTENSIONS.filter (fun e => strEndsWith e file.path)).map
        (fun _ => "Binary file not allowed: " ++ file.path)
      let warns :=
        if strContains "auth" file.path || strContains "payment" file.path
            || strContains "security" file.path then
          ["Sensitive path detected: " ++ file.path ++ " - review carefully"]
        else []
      (acc.1 ++ denyErrs ++ binErrs, acc.2.1 ++ warns,
        acc.2.2 + file.additions + file.deletions))
    (countErrors, [], 0)
  let errors :=
    if loop.2.2 > EDGE_MAX_DIFF_LINES then
      loop.1 ++ ["Diff too large: " ++ toString loop.2.2 ++ " lines > "
        ++ toString EDGE_MAX_DIFF_LINES ++ " max"]
    else loop.1
  { valid := errors.isEmpty, errors := errors, warnings := loop.2.1 }

/-! ## Store model shared by the edge-function handlers

The Supabase tables `runs`, `patches` and `run_events`.  Events are recorded
as `(run_id, event_type)` pairs; their payloads carry timestamps and ids that
are outside the shallow embedding. -/

structure RunRec where
  id : String
  status : RunStatus
  created_at : Nat
deriving DecidableEq, Repr

structure PatchRec where
  id : String
  run_id : String
  approved : Bool
  applied : Bool
  files_changed : List EdgeFileChange
deriving DecidableEq, Repr

structure Store where
  runs : List RunRec
  patches : List PatchRec
  events : List (String × String)
deriving DecidableEq, Repr

/-- SQL `update runs set status = s where id = rid`. -/
def setRunStatus (runs : List RunRec) (rid : String) (s : RunStatus) : List RunRec :=
  runs.map (fun r => if r.id = rid then { r with status := s } else r)

/-- SQL `update patches set applied = true where id = pid`. -/
def setPatchApplied (patches : List PatchRec) (pid : String) : List PatchRec :=
  patches.map (fun p => if p.id = pid then { p with applied := true } else p)

/-- Responses of `POST /patches/:id/apply`. -/
inductive PatchApplyResponse
  | notFound
  | blocked (reason : String)
  | alreadyApplied
  | constraintViolation (errors : List String)
  | ok (filesAffected : Nat)
deriving DecidableEq, Repr

/-- Embedding of the `POST /patches/:id/apply` handler
(`supabase/functions/patches/index.ts`): fetch the patch (with its run via an
inner join), block unapproved patches, reject already-applied ones,
re-validate constraints, then mark applied and complete the run. -/
def patchesApplyHandler (st : Store) (patchId : String) :
    PatchApplyResponse × Store :=
  match st.patches.find? (·.id = patchId) with
  | none => (.notFound, st)
  | some patch =>
    if (st.runs.find? (·.id = patch.run_id)).isNone then
      (.notFound, st)
    else if !patch.approved then
      (.blocked "Patch not approved",
        { st with events := st.events ++ [(patch.run_id, "APPLY_BLOCKED")] })
    else if patch.applied then
      (.alreadyApplied, st)
    else
      let reval := edgeValidatePatch patch.files_changed
      if !reval.valid then
        (.constraintViolation reval.errors,
          { st with events := st.events ++ [(patch.run_id, "APPLY_BLOCKED")] })
      else
        let st := { st with events := st.events ++ [(patch.run_id, "APPLY_STARTED")] }
        let st := { st with runs := setRunStatus st.runs patch.run_id .applying }
        let st := { st with patches := setPatchApplied st.patches patchId }
        let st := { st with events := st.events ++ [(patch.run_id, "APPLY_FINISHED")] }
        let st := { st with runs := setRunStatus st.runs patch.run_id .completed }
        (.ok patch.files_changed.length, st)

/-! ## Edge function: runner protocol (`supabase/functions/runner/index.ts`) -/

/-- Responses of `POST /runner/patch-applied`. -/
inductive PatchAppliedResponse
  | badRequest (msg : String)
  | ok
deriving DecidableEq, Repr

/-- Embedding of the `POST /runner/patch-applied` handler: set `applied` on
the patch (no approval check appears in the source), emit `PATCH_APPLIED`,
and complete the run once no unapplied patches remain for it. -/
def runnerPatchAppliedHandler (st : Store) (patchId : Option String)
    (runId : Option String) : PatchAppliedResponse × Store :=
  match patchId with
  | none => (.badRequest "patchId required", st)
  | some pid =>
    let st := { st with patches := setPatchApplied st.patches pid }
    let st := { st with events := st.events ++ [(runId.getD "", "PATCH_APPLIED")] }
    match runId with
    | none => (.ok, st)
    | some rid =>
      let remaining := st.patches.filter (fun p => p.run_id = rid && p.applied = false)
      if remaining.isEmpty then
        let st := { st with runs := setRunStatus st.runs rid .completed }
        let st := { st with events := st.events ++ [(rid, "RUN_COMPLETED")] }
        (.ok, st)
      else (.ok, st)

/-- Responses of `POST /runner/claim-run`. -/
inductive ClaimResponse
  | claimed (run : RunRec)
  | notClaimed (error : String)
  | noneQueued
deriving DecidableEq, Repr

/-- SQL `update runs set status = running where id = rid and status = queued`,
returning the updated rows (at most one, ids being unique). -/
def claimUpdate (runs : List RunRec) (rid : String) :
    Option RunRec × List RunRec :=
  ((runs.find? (fun r => r.id = rid && r.status == .queued)).map
      (fun r => { r with status := .running }),
    runs.map (fun r =>
      if r.id = rid && r.status == .queued then { r with status := .running } else r))

/-- The handler's two store accesses (the initial `select` and the
conditional `update`) are separate round-trips; a concurrent claimant may
change the store in between.  `fetchSt` is the store state at the select,
`updSt` the state at the update. -/
def claimRunSpecific (fetchSt updSt : Store) (runId : String) :
    ClaimResponse × Store :=
  match fetchSt.runs.find? (fun r => r.id = runId && r.status == .queued) with
  | none => (.notClaimed "Run not found or not queued", updSt)
  | some _ =>
    let upd := claimUpdate updSt.runs runId
    match upd.1 with
    | none => (.notClaimed "Run already claimed", updSt)
    | some updated =>
      (.claimed updated,
        { updSt with runs := upd.2
                     events := updSt.events ++ [(runId, "RUN_STARTED")] })

/-- SQL `select * from runs where status = queued order by created_at asc
limit 1`. -/
def oldestQueued (runs : List RunRec) : Option RunRec :=
  (runs.filter (fun r => r.status == .queued)).foldl
    (fun acc r =>
      match acc with
      | none => some r
      | some b => if r.created_at < b.created_at then some r else some b)
    none

/-- Embedding of the oldest-queued path of `POST /runner/claim-run`: fetch
the oldest queued run, run the conditional update, emit `RUN_STARTED`, and
return the fetched record — the source never inspects how many rows the
update affected. -/
def claimRunOldest (fetchSt updSt : Store) : ClaimResponse × Store :=
  match oldestQueued fetchSt.runs with
  | none => (.noneQueued, updSt)
  | some run =>
    let upd := claimUpdate updSt.runs run.id
    (.claimed run,
      { updSt with runs := upd.2
                   events := updSt.events ++ [(run.id, "RUN_STARTED")] })

/-! ## Edge function: runner events endpoint (`POST /runner/events`) -/

def MAX_EVENTS_PER_REQUEST : Nat := 50
def MAX_LOG_CONTENT_LENGTH : Nat := 4096

/-- JSON values of an event payload. -/
inductive JsonVal
  | str (s : String)
  | num (n : Int)
  | boolean (b : Bool)
  | null
  | arr (xs : List JsonVal)
  | obj (fields : List (String × JsonVal))
deriving Repr

/-- Embedding of `sanitizePayload`: truncate long strings, cap arrays at 100
elements, cap nested objects at 50 entries with their long strings truncated
at 1000; everything else passes through. -/
def sanitizePayload (payload : List (String × JsonVal)) :
    List (String × JsonVal) :=
  payload.map (fun kv =>
    (kv.1,
      match kv.2 with
      | .str s =>
        .str (if s.length > MAX_LOG_CONTENT_LENGTH then s.take MAX_LOG_CONTENT_LENGTH ++ "..." else s)
      | .arr xs => .arr (xs.take 100)
      | .obj fields =>
        .obj ((fields.take 50).map (fun f =>
          (f.1,
            match f.2 with
            | .str s2 => .str (if s2.length > 1000 then s2.take 1000 ++ "..." else s2)
            | v => v)))
      | v => v))

structure RunnerEvent where
  type : String
  payload : List (String × JsonVal)

/-- A row inserted into `run_events`. -/
structure EventRow where
  run_id : String
  event_type : String
  payload : List (String × JsonVal)

inductive EventsResponse
  | badRequest (error : String)
  | ok (count : Nat)
deriving DecidableEq, Repr

/-- Embedding of the `POST /runner/events` handler: reject an empty events
array, cap the array at `MAX_EVENTS_PER_REQUEST` (`events.length = 50`
truncates in place), sanitize and insert the surviving events, and answer
success with the inserted count. -/
def runnerEventsHandler (runId : String) (events : List RunnerEvent) :
    EventsResponse × List EventRow :=
  if events.isEmpty then (.badRequest "Events array required", [])
  else
    let events := if events.length > MAX_EVENTS_PER_REQUEST then
        events.take MAX_EVENTS_PER_REQUEST
      else events
    let rows := events.map (fun e =>
      { run_id := runId, event_type := e.type, payload := sanitizePayload e.payload })
    (.ok rows.length, rows)

/-! ## Theorems -/

/-- When `base` is not a prefix of `target`, `path.relative` must first walk
upward, so the relative path starts with a `..` segment. -/
theorem relativeSegs_of_not_prefix (base target : List String)
    (h : base.isPrefixOf target = false) :
    relStartsWithDotDot (relativeSegs base target) = true := by
  induction base generalizing target with
  | nil => simp [List.isPrefixOf] at h
  | cons b bs ih =>
    cases target with
    | nil =>
      simp only [relativeSegs, List.length_cons, List.replicate]
      rfl
    | cons t ts =>
      simp only [List.isPrefixOf, Bool.and_eq_false_iff, beq_eq_false_iff_ne] at h
      rw [relativeSegs]
      by_cases hbt : b = t
      · rw [if_pos hbt]
        rcases h with h | h
        · exact absurd hbt h
        · exact ih ts h
      · rw [if_neg hbt]
        simp only [List.length_cons, List.replicate, List.cons_append]
        rfl

/-- Claim C3: every target path whose resolution against the repository root
is not a descendant of the root is rejected by `validatePath` with a
path-traversal error, for every denylist (and binary-extension)
configuration — the rejection is decided before the denylist is consulted. -/
theorem c3_path_traversal_always_rejected (cfg : RunnerConfig) (p : FsPath)
    (h : cfg.repoSegs.isPrefixOf (resolveSegs cfg.repoSegs p) = false) :
    validatePath cfg p
      = { valid := false, error := some ("Path traversal detected: " ++ p.raw) } := by
  have hdd := relativeSegs_of_not_prefix _ _ h
  unfold validatePath
  simp [hdd]

def c3Cfg : RunnerConfig :=
  { repoSegs := ["repo"]
    patchConstraints :=
      { maxFilesChanged := 20, maxDiffLines := 1000
        pathDenylist := [], binaryExtensions := [] } }

def c3Path : FsPath := { absolute := false, segs := ["..", "outside.txt"] }

/-- Witness for C3 at `../outside.txt` against root `/repo` with an empty
denylist. -/
theorem c3_witness :
    c3Cfg.repoSegs.isPrefixOf (resolveSegs c3Cfg.repoSegs c3Path) = false
    ∧ validatePath c3Cfg c3Path
        = { valid := false, error := some ("Path traversal detected: " ++ c3Path.raw) } :=
  ⟨by decide, c3_path_traversal_always_rejected c3Cfg c3Path (by decide)⟩

def c6File : RiskFile := { path := "src/main.ts", additions := 301, deletions := 0 }

/-- Claim C6 (code bug): the `else if (totalLines > 300)` branch of the risk
scorer is unreachable — any total above 300 is already caught by the
`> 100` check — so the +4 contribution never happens; a 301-line diff gets
+2 and the medium "Large diff size" factor. -/
theorem c6_very_large_branch_dead :
    (∀ n : Nat, (sizeCheck n).1 < 4)
    ∧ sizeCheck 301
        = (2, [{ reason := "Large diff size (301 lines)", severity := Severity.medium }])
    ∧ assessRisk [c6File] "update"
        = { score := Severity.low
            factors := [{ reason := "Large diff size (301 lines)"
                          severity := Severity.medium }] } := by
  refine ⟨?_, by decide, by decide⟩
  intro n
  unfold sizeCheck
  split
  · simp
  · split
    · omega
    · simp

def c2RunQueued : RunRec := { id := "r1", status := .queued, created_at := 1 }

def c2RunRunning : RunRec := { id := "r1", status := .running, created_at := 1 }

def c2FetchStore : Store := { runs := [c2RunQueued], patches := [], events := [] }

def c2UpdStore : Store := { runs := [c2RunRunning], patches := [], events := [] }

/-- Claim C2 (code bug): with run `r1` queued at the select but flipped to
`running` by a concurrent claimant before the conditional update, the
oldest-queued claim path's update affects zero rows, yet the handler still
answers with the (stale) run record instead of "not claimed"; the
specific-run path answers "Run already claimed" in the same situation. -/
theorem c2_oldest_claim_ignores_zero_rows :
    (claimUpdate c2UpdStore.runs "r1").1 = none
    ∧ (claimRunOldest c2FetchStore c2UpdStore).1 = ClaimResponse.claimed c2RunQueued
    ∧ (claimRunOldest c2FetchStore c2UpdStore).2.runs = [c2RunRunning]
    ∧ (claimRunSpecific c2FetchStore c2UpdStore "r1").1
        = ClaimResponse.notClaimed "Run already claimed" :=
  ⟨by decide, by decide, by decide, by decide⟩

def c1Patch : PatchRec :=
  { id := "p1", run_id := "r1", approved := false, applied := false, files_changed := [] }

def c1Store : Store :=
  { runs := [{ id := "r1", status := .approved, created_at := 0 }]
    patches := [c1Patch], events := [] }

/-- Counterexample to C1 as stated: `POST /runner/patch-applied` on a patch
whose `approved` flag is false persists `applied = true` with
`approved = false`. -/
theorem c1_counterexample :
    (runnerPatchAppliedHandler c1Store (some "p1") (some "r1")).2.patches
      = [{ id := "p1", run_id := "r1", approved := false, applied := true
           files_changed := [] }] := by
  decide

/-- Updating the `applied` flag of the patch found under `pid` is visible
through `find?` after `setPatchApplied`. -/
theorem find_setPatchApplied (patches : List PatchRec) (pid : String) (patch : PatchRec)
    (h : patches.find? (fun p => p.id = pid) = some patch) :
    (setPatchApplied patches pid).find? (fun p => p.id = pid)
      = some { patch with applied := true } := by
  induction patches with
  | nil => simp at h
  | cons q qs ih =>
    by_cases hq : q.id = pid
    · rw [List.find?_cons_of_pos _ (by simp [hq])] at h
      cases h
      unfold setPatchApplied
      rw [List.map_cons, if_pos hq]
      exact List.find?_cons_of_pos _ (by simp [hq])
    · rw [List.find?_cons_of_neg _ (by simp [hq])] at h
      unfold setPatchApplied
      rw [List.map_cons, if_neg hq]
      rw [List.find?_cons_of_neg _ (by simp [hq])]
      exact ih h

/-- The patches component written by `POST /runner/patch-applied` is always
`setPatchApplied`, whatever the completion check decides. -/
theorem runnerPatchApplied_patches (st : Store) (pid : String) (rid : Option String) :
    (runnerPatchAppliedHandler st (some pid) rid).2.patches
      = setPatchApplied st.patches pid := by
  unfold runnerPatchAppliedHandler
  cases rid with
  | none => rfl
  | some r =>
    dsimp only
    split <;> rfl

/-- Claim C1, amended: the patch apply endpoint refuses to set `applied` on an
unapproved patch (it answers not-found or apply-blocked and leaves the patch
records untouched), while the runner patch-applied endpoint sets
`applied = true` on the matching patch without consulting `approved`. -/
theorem c1_apply_requires_approval (st : Store) (pid : String) (rid : Option String)
    (patch : PatchRec)
    (hfind : st.patches.find? (fun p => p.id = pid) = some patch)
    (hnotappr : patch.approved = false) :
    (patchesApplyHandler st pid).2.patches = st.patches
    ∧ ((patchesApplyHandler st pid).1 = PatchApplyResponse.notFound
        ∨ (patchesApplyHandler st pid).1 = PatchApplyResponse.blocked "Patch not approved")
    ∧ (runnerPatchAppliedHandler st (some pid) rid).2.patches.find? (fun p => p.id = pid)
        = some { patch with applied := true } := by
  refine ⟨?_, ?_, ?_⟩
  · unfold patchesApplyHandler
    rw [hfind]
    dsimp only
    split
    · rfl
    · rw [hnotappr]
      rfl
  · unfold patchesApplyHandler
    rw [hfind]
    dsimp only
    split
    · exact Or.inl rfl
    · rw [hnotappr]
      exact Or.inr rfl
  · rw [runnerPatchApplied_patches]
    exact find_setPatchApplied st.patches pid patch hfind

/-- Witness for the amended C1 at a concrete store holding the unapproved
patch `p1`. -/
theorem c1_witness :
    c1Store.patches.find? (fun p => p.id = "p1") = some c1Patch
    ∧ c1Patch.approved = false
    ∧ ((patchesApplyHandler c1Store "p1").2.patches = c1Store.patches
        ∧ ((patchesApplyHandler c1Store "p1").1 = PatchApplyResponse.notFound
            ∨ (patchesApplyHandler c1Store "p1").1
                = PatchApplyResponse.blocked "Patch not approved")
        ∧ (runnerPatchAppliedHandler c1Store (some "p1") (some "r1")).2.patches.find?
              (fun p => p.id = "p1")
            = some { c1Patch with applied := true }) :=
  ⟨by decide, by decide,
    c1_apply_requires_approval c1Store "p1" (some "r1") c1Patch (by decide) (by decide)⟩

/-- Claim C5: a project in which no verification command is detected yields
an empty result list, the aggregate is not passed, and the run is persisted
as `failed`, never `awaiting_approval`. -/
theorem c5_zero_commands_means_failed (env : PkgEnv) (exec : CommandConfig → Option Int)
    (h : getPackageManagerCommands env = (none, none)) :
    runVerification env exec = (false, [])
    ∧ statusAfterVerification (runVerification env exec).1 = RunStatus.failed
    ∧ (statusAfterVerification (runVerification env exec).1
        == RunStatus.awaiting_approval) = false := by
  have h1 : runVerification env exec = (false, []) := by
    unfold runVerification
    rw [h]
    rfl
  exact ⟨h1, by rw [h1]; rfl, by rw [h1]; rfl⟩

def c5Env : PkgEnv := { scripts := [], hasTsConfig := false, packageManager := "npm" }

/-- Witness for C5 on a project with no scripts and no tsconfig. -/
theorem c5_witness :
    getPackageManagerCommands c5Env = (none, none)
    ∧ (runVerification c5Env (fun _ => some 0) = (false, [])
        ∧ statusAfterVerification (runVerification c5Env (fun _ => some 0)).1
            = RunStatus.failed
        ∧ (statusAfterVerification (runVerification c5Env (fun _ => some 0)).1
            == RunStatus.awaiting_approval) = false) :=
  ⟨by rfl, c5_zero_commands_means_failed c5Env (fun _ => some 0) (by rfl)⟩

/-- Decidable equality agrees with boolean equality on `Int`. -/
theorem decide_eq_beq_int (a b : Int) : decide (a = b) = (a == b) := by
  by_cases h : a = b <;> simp [h]

/-- Claim C8: when both a typecheck and a test command are detected, both are
executed and collected — the test result is appended regardless of the
typecheck outcome — and the aggregate passes exactly when both exit codes are
zero; in general the aggregate is "some command ran and every collected exit
code is zero". -/
theorem c8_both_commands_always_run (env : PkgEnv) (exec : CommandConfig → Option Int)
    (tc t : CommandConfig)
    (h : getPackageManagerCommands env = (some tc, some t)) :
    (runVerification env exec).2 = [runVerifyCommand exec tc, runVerifyCommand exec t]
    ∧ ((runVerification env exec).1 = true
        ↔ (runVerifyCommand exec tc).exitCode = 0
            ∧ (runVerifyCommand exec t).exitCode = 0)
    ∧ ∀ (env2 : PkgEnv) (exec2 : CommandConfig → Option Int),
        (runVerification env2 exec2).1
          = ((0 < (runVerification env2 exec2).2.length : Bool)
              && (runVerification env2 exec2).2.all (fun r => r.exitCode == 0)) := by
  refine ⟨?_, ?_, ?_⟩
  · unfold runVerification
    rw [h]
    rfl
  · unfold runVerification
    rw [h]
    simp only [runVerifyCommand]
    simp [Bool.and_eq_true, decide_eq_true_eq]
  · intro env2 exec2
    unfold runVerification
    rcases hc : getPackageManagerCommands env2 with ⟨tc2, t2⟩
    cases tc2 <;> cases t2 <;>
      simp [runVerifyCommand, List.all_cons, decide_eq_beq_int]

def c8Env : PkgEnv :=
  { scripts := [("typecheck", "tsc --noEmit"), ("test", "vitest")]
    hasTsConfig := true, packageManager := "npm" }

def c8Exec : CommandConfig → Option Int :=
  fun c => if c.description = "Tests" then some 0 else some 2

def c8Tc : CommandConfig :=
  { command := "npm", args := ["run", "typecheck"], description := "Type checking" }

def c8T : CommandConfig :=
  { command := "npm", args := ["test", "--", "--run"], description := "Tests" }

/-- Witness for C8 with a failing typecheck (exit 2) and a passing test
(exit 0): both results are collected, the aggregate fails. -/
theorem c8_witness :
    getPackageManagerCommands c8Env = (some c8Tc, some c8T)
    ∧ ((runVerification c8Env c8Exec).2
          = [runVerifyCommand c8Exec c8Tc, runVerifyCommand c8Exec c8T]
        ∧ ((runVerification c8Env c8Exec).1 = true
            ↔ (runVerifyCommand c8Exec c8Tc).exitCode = 0
                ∧ (runVerifyCommand c8Exec c8T).exitCode = 0)
        ∧ ∀ (env2 : PkgEnv) (exec2 : CommandConfig → Option Int),
            (runVerification env2 exec2).1
              = ((0 < (runVerification env2 exec2).2.length : Bool)
                  && (runVerification env2 exec2).2.all (fun r => r.exitCode == 0))) :=
  ⟨by rfl, c8_both_commands_always_run c8Env c8Exec c8Tc c8T (by rfl)⟩

/-- Claim C10: a request with more than `MAX_EVENTS_PER_REQUEST` events is
silently capped — exactly the first 50 events are sanitized and inserted and
the response is success with count 50. -/
theorem c10_events_capped_at_50 (runId : String) (events : List RunnerEvent)
    (h : events.length > MAX_EVENTS_PER_REQUEST) :
    (runnerEventsHandler runId events).1 = EventsResponse.ok MAX_EVENTS_PER_REQUEST
    ∧ (runnerEventsHandler runId events).2
        = (events.take MAX_EVENTS_PER_REQUEST).map (fun e =>
            { run_id := runId, event_type := e.type
              payload := sanitizePayload e.payload })
    ∧ (runnerEventsHandler runId events).2.length = MAX_EVENTS_PER_REQUEST := by
  have hne : events.isEmpty = false := by
    cases events
    · simp [MAX_EVENTS_PER_REQUEST] at h
    · rfl
  have hlen : ((events.take MAX_EVENTS_PER_REQUEST).map (fun e =>
      ({ run_id := runId, event_type := e.type
         payload := sanitizePayload e.payload } : EventRow))).length
      = MAX_EVENTS_PER_REQUEST := by
    simp only [List.length_map, List.length_take]
    omega
  refine ⟨?_, ?_, ?_⟩ <;>
    simp only [runnerEventsHandler, hne, Bool.false_eq_true, if_false, if_pos h, hlen]

def c10Events : List RunnerEvent :=
  List.replicate 51 { type := "VERIFY_LOG", payload := [] }

/-- Witness for C10 on a 51-event request. -/
theorem c10_witness :
    c10Events.length > MAX_EVENTS_PER_REQUEST
    ∧ ((runnerEventsHandler "r1" c10Events).1 = EventsResponse.ok MAX_EVENTS_PER_REQUEST
        ∧ (runnerEventsHandler "r1" c10Events).2
            = (c10Events.take MAX_EVENTS_PER_REQUEST).map (fun e =>
                { run_id := "r1", event_type := e.type
                  payload := sanitizePayload e.payload })
        ∧ (runnerEventsHandler "r1" c10Events).2.length = MAX_EVENTS_PER_REQUEST) :=
  ⟨by decide, c10_events_capped_at_50 "r1" c10Events (by decide)⟩

/-- A list with positive length is not `isEmpty`. -/
theorem isEmpty_false_of_pos {α : Type} (l : List α) (h : 0 < l.length) :
    l.isEmpty = false := by
  cases l
  · simp at h
  · rfl

/-- The error list accumulated by `validatePatch`'s loop only grows. -/
theorem validatePatch_errors_mono (cfg : RunnerConfig) (files : List PatchFile)
    (acc : List String × List String × Nat) :
    acc.1.length ≤ (files.foldl (validatePatchStep cfg) acc).1.length := by
  induction files generalizing acc with
  | nil => simp
  | cons f fs ih =>
    rw [List.foldl_cons]
    refine le_trans ?_ (ih (validatePatchStep cfg acc f))
    unfold validatePatchStep
    dsimp only
    split <;> simp

/-- A file failing `validatePath` forces a nonempty error list out of
`validatePatch`'s loop. -/
theorem validatePatch_errors_pos (cfg : RunnerConfig) (files : List PatchFile)
    (f : PatchFile) (hf : f ∈ files) (hv : (validatePath cfg f.path).valid = false) :
    ∀ acc, 0 < (files.foldl (validatePatchStep cfg) acc).1.length := by
  induction files with
  | nil => simp at hf
  | cons g gs ih =>
    intro acc
    rw [List.foldl_cons]
    rcases List.mem_cons.mp hf with h | h
    · subst h
      refine lt_of_lt_of_le ?_ (validatePatch_errors_mono cfg gs _)
      unfold validatePatchStep
      dsimp only
      rcases hvp : validatePath cfg f.path with ⟨v, e⟩
      rw [hvp] at hv
      dsimp at hv
      subst hv
      simp
    · exact ih h _

/-- The error list accumulated by `applyDiff`'s pre-validation only grows. -/
theorem applyPre_errors_mono (cfg : RunnerConfig) (patches : List FilePatch)
    (errs : List String) :
    errs.length ≤ (patches.foldl (applyPreStep cfg) errs).length := by
  induction patches generalizing errs with
  | nil => simp
  | cons p ps ih =>
    rw [List.foldl_cons]
    refine le_trans ?_ (ih (applyPreStep cfg errs p))
    unfold applyPreStep
    dsimp only
    split
    · exact le_refl _
    · split <;> simp

/-- A patch whose stripped target path fails `validatePath` forces a nonempty
pre-validation error list. -/
theorem applyPre_errors_pos (cfg : RunnerConfig) (patches : List FilePatch)
    (p : FilePatch) (q : FsPath) (hp : p ∈ patches)
    (hq : p.newFileName.map stripAB = some q)
    (hqm : pathMissing (some q) = false)
    (hqv : (validatePath cfg q).valid = false) :
    ∀ errs, 0 < (patches.foldl (applyPreStep cfg) errs).length := by
  induction patches with
  | nil => simp at hp
  | cons g gs ih =>
    intro errs
    rw [List.foldl_cons]
    rcases List.mem_cons.mp hp with h | h
    · subst h
      refine lt_of_lt_of_le ?_ (applyPre_errors_mono cfg gs _)
      unfold applyPreStep
      rw [hq]
      dsimp only
      rw [hqm]
      simp only [Bool.false_eq_true, if_false, Option.getD_some]
      rcases hvp : validatePath cfg q with ⟨v, e⟩
      rw [hvp] at hqv
      dsimp at hqv
      subst hqv
      simp
    · exact ih h _

/-- Appending one more message cannot empty a nonempty error list. -/
theorem length_pos_if_append (c : Prop) [Decidable c] (l : List String) (m : String)
    (h : 0 < l.length) : 0 < (if c then l ++ [m] else l).length := by
  split
  · simp only [List.length_append, List.length_cons, List.length_nil]
    omega
  · exact h

/-- Claim C4: validation is all-or-nothing.  If any file of a patch fails
path validation, `validatePatch` reports the patch invalid, and `applyDiff`
rejects the whole diff with `success = false`, `filesAffected = 0`, and the
filesystem completely untouched — including files that individually passed. -/
theorem c4_validation_all_or_nothing (cfg : RunnerConfig)
    (files : List PatchFile) (f : PatchFile)
    (hf : f ∈ files) (hfv : (validatePath cfg f.path).valid = false)
    (patches : List FilePatch) (ah : String → FilePatch → Option String) (fs : Fs)
    (p : FilePatch) (q : FsPath) (hp : p ∈ patches)
    (hq : p.newFileName.map stripAB = some q)
    (hqm : pathMissing (some q) = false)
    (hqv : (validatePath cfg q).valid = false) :
    (validatePatch cfg files).valid = false
    ∧ (applyDiff cfg ah fs patches).1.success = false
    ∧ (applyDiff cfg ah fs patches).1.filesAffected = 0
    ∧ (applyDiff cfg ah fs patches).2 = fs := by
  have hpre : 0 < (applyPreErrors cfg patches).length :=
    applyPre_errors_pos cfg patches p q hp hq hqm hqv []
  have hgate : (!(applyPreErrors cfg patches).isEmpty) = true := by
    rw [isEmpty_false_of_pos _ hpre]
    rfl
  refine ⟨?_, ?_, ?_, ?_⟩
  · simp only [validatePatch]
    apply isEmpty_false_of_pos
    exact length_pos_if_append _ _ _ (validatePatch_errors_pos cfg files f hf hfv _)
  · simp only [applyDiff, hgate, if_true]
  · simp only [applyDiff, hgate, if_true]
  · simp only [applyDiff, hgate, if_true]

def c4Constraints : PatchConstraints :=
  { maxFilesChanged := 20, maxDiffLines := 1000
    pathDenylist := [".env", "node_modules"], binaryExtensions := [".png"] }

def c4Cfg : RunnerConfig := { repoSegs := ["repo"], patchConstraints := c4Constraints }

def c4GoodFile : PatchFile :=
  { path := { absolute := false, segs := ["src", "ok.ts"] }
    additions := 1, deletions := 0, diffLines := ["+x"] }

def c4BadFile : PatchFile :=
  { path := { absolute := false, segs := ["..", "evil.ts"] }
    additions := 1, deletions := 0, diffLines := ["+y"] }

def c4BadPatch : FilePatch :=
  { oldFileName := none
    newFileName := some { absolute := false, segs := ["..", "evil.ts"] }
    hunks := [{ lines := ["+y"] }] }

def c4GoodPatch : FilePatch :=
  { oldFileName := none
    newFileName := some { absolute := false, segs := ["b", "new.txt"] }
    hunks := [{ lines := ["+hello"] }] }

/-- Witness for C4: a two-file patch with one traversal path is rejected
whole and writes nothing, although the other file passes alone. -/
theorem c4_witness :
    c4BadFile ∈ [c4GoodFile, c4BadFile]
    ∧ (validatePath c4Cfg c4BadFile.path).valid = false
    ∧ c4BadPatch ∈ [c4GoodPatch, c4BadPatch]
    ∧ c4BadPatch.newFileName.map stripAB
        = some { absolute := false, segs := ["..", "evil.ts"] }
    ∧ pathMissing (some { absolute := false, segs := ["..", "evil.ts"] }) = false
    ∧ (validatePath c4Cfg { absolute := false, segs := ["..", "evil.ts"] }).valid = false
    ∧ ((validatePatch c4Cfg [c4GoodFile, c4BadFile]).valid = false
        ∧ (applyDiff c4Cfg (fun _ _ => none) [(["repo", "f.txt"], "old")]
            [c4GoodPatch, c4BadPatch]).1.success = false
        ∧ (applyDiff c4Cfg (fun _ _ => none) [(["repo", "f.txt"], "old")]
            [c4GoodPatch, c4BadPatch]).1.filesAffected = 0
        ∧ (applyDiff c4Cfg (fun _ _ => none) [(["repo", "f.txt"], "old")]
            [c4GoodPatch, c4BadPatch]).2 = [(["repo", "f.txt"], "old")]) :=
  ⟨by decide, by decide, by decide, by decide, by decide, by decide,
    c4_validation_all_or_nothing c4Cfg [c4GoodFile, c4BadFile] c4BadFile
      (by decide) (by decide)
      [c4GoodPatch, c4BadPatch] (fun _ _ => none) [(["repo", "f.txt"], "old")]
      c4BadPatch { absolute := false, segs := ["..", "evil.ts"] }
      (by decide) (by decide) (by decide) (by decide)⟩

/-- Every iteration of the apply loop produces exactly one outcome: a written
file, an error, or a warning. -/
theorem applyFileStep_one_outcome (cfg : RunnerConfig)
    (ah : String → FilePatch → Option String) (fs : Fs) (p : FilePatch) :
    (applyFileStep cfg ah fs p).1.1 + (applyFileStep cfg ah fs p).1.2.1.length
      + (applyFileStep cfg ah fs p).1.2.2.length = 1 := by
  unfold applyFileStep
  dsimp only
  split
  · rfl
  · split
    · rfl
    · split
      · rfl
      · split
        · rfl
        · split
          · rfl
          · rfl

/-- Accounting over the apply loop: written files, errors and warnings
partition the processed files, so `filesAffected` counts exactly the files
that were written even when others failed. -/
theorem applyLoop_accounting (cfg : RunnerConfig)
    (ah : String → FilePatch → Option String) (ps : List FilePatch) (fs : Fs) :
    (applyLoop cfg ah ps fs).1.1 + (applyLoop cfg ah ps fs).1.2.1.length
      + (applyLoop cfg ah ps fs).1.2.2.length = ps.length := by
  induction ps generalizing fs with
  | nil => rfl
  | cons p rest ih =>
    have h1 := applyFileStep_one_outcome cfg ah fs p
    have h2 := ih (applyFileStep cfg ah fs p).2
    simp only [applyLoop, List.length_append, List.length_cons]
    omega

/-- A modified file whose base content has drifted (the hunk application
oracle returns `none`) contributes exactly one recorded error and leaves the
filesystem unchanged. -/
theorem applyFileStep_drift (cfg : RunnerConfig)
    (ah : String → FilePatch → Option String) (fs : Fs) (p : FilePatch)
    (q : FsPath) (orig : String)
    (hnew : p.newFileName.map stripAB = some q)
    (hqm : pathMissing (some q) = false)
    (hqd : isDevNull (some q) = false)
    (hod : isDevNull (p.oldFileName.map stripAB) = false)
    (hom : pathMissing (p.oldFileName.map stripAB) = false)
    (hread : fsRead fs (joinSegs cfg.repoSegs q) = some orig)
    (hdrift : ah orig p = none) :
    applyFileStep cfg ah fs p
      = ((0, ["Failed to apply patch to " ++ q.raw ++ " - content may have changed"], []),
          fs) := by
  unfold applyFileStep
  rw [hnew]
  simp only [hqm, hqd, hod, hom, Bool.false_eq_true, if_false, Bool.or_self,
    Option.getD_some, hread, hdrift]

/-- `applyDiff` reports success exactly when its error list is empty, in
both the rejected-by-validation case and the applied case. -/
theorem applyDiff_success_iff_no_errors (cfg : RunnerConfig)
    (ah : String → FilePatch → Option String) (fs : Fs) (ps : List FilePatch) :
    (applyDiff cfg ah fs ps).1.success = (applyDiff cfg ah fs ps).1.errors.isEmpty := by
  unfold applyDiff
  dsimp only
  split
  · next hgate =>
    simp only [Bool.not_eq_eq_eq_not, Bool.not_true] at hgate
    exact hgate.symm
  · rfl

/-- Claim C7: patch apply is best-effort per file.  A drifted modified file
contributes a recorded error while the remaining files are still processed
against the unchanged filesystem; `success` holds exactly when zero errors
occurred; and written files, errors and warnings partition the files, so
`filesAffected` counts exactly the successfully written files. -/
theorem c7_apply_best_effort_per_file (cfg : RunnerConfig)
    (ah : String → FilePatch → Option String) (fs : Fs) (p : FilePatch)
    (rest : List FilePatch) (q : FsPath) (orig : String)
    (hnew : p.newFileName.map stripAB = some q)
    (hqm : pathMissing (some q) = false)
    (hqd : isDevNull (some q) = false)
    (hod : isDevNull (p.oldFileName.map stripAB) = false)
    (hom : pathMissing (p.oldFileName.map stripAB) = false)
    (hread : fsRead fs (joinSegs cfg.repoSegs q) = some orig)
    (hdrift : ah orig p = none) :
    (applyLoop cfg ah (p :: rest) fs).1.2.1
      = ("Failed to apply patch to " ++ q.raw ++ " - content may have changed")
          :: (applyLoop cfg ah rest fs).1.2.1
    ∧ (applyLoop cfg ah (p :: rest) fs).1.1 = (applyLoop cfg ah rest fs).1.1
    ∧ (applyLoop cfg ah (p :: rest) fs).1.2.2 = (applyLoop cfg ah rest fs).1.2.2
    ∧ (applyLoop cfg ah (p :: rest) fs).2 = (applyLoop cfg ah rest fs).2
    ∧ (∀ (ps : List FilePatch) (fs0 : Fs),
        (applyDiff cfg ah fs0 ps).1.success = (applyDiff cfg ah fs0 ps).1.errors.isEmpty)
    ∧ (∀ (ps : List FilePatch) (fs0 : Fs),
        (applyLoop cfg ah ps fs0).1.1 + (applyLoop cfg ah ps fs0).1.2.1.length
          + (applyLoop cfg ah ps fs0).1.2.2.length = ps.length) := by
  have hstep := applyFileStep_drift cfg ah fs p q orig hnew hqm hqd hod hom hread hdrift
  refine ⟨?_, ?_, ?_, ?_,
    fun ps fs0 => applyDiff_success_iff_no_errors cfg ah fs0 ps,
    fun ps fs0 => applyLoop_accounting cfg ah ps fs0⟩ <;>
    simp only [applyLoop, hstep, List.nil_append, List.singleton_append, Nat.zero_add]

def c7DriftPatch : FilePatch :=
  { oldFileName := some { absolute := false, segs := ["a", "f.txt"] }
    newFileName := some { absolute := false, segs := ["b", "f.txt"] }
    hunks := [{ lines := ["-old", "+new"] }] }

def c7NewPatch : FilePatch :=
  { oldFileName := none
    newFileName := some { absolute := false, segs := ["b", "new.txt"] }
    hunks := [{ lines := ["+hello", "+world"] }] }

def c7Fs : Fs := [(["repo", "f.txt"], "old")]

def c7Q : FsPath := { absolute := false, segs := ["f.txt"] }

/-- Witness for C7: a drifted `f.txt` (the oracle rejects every hunk
application) records one error while the following new-file patch is still
written. -/
theorem c7_witness :
    c7DriftPatch.newFileName.map stripAB = some c7Q
    ∧ pathMissing (some c7Q) = false
    ∧ isDevNull (some c7Q) = false
    ∧ isDevNull (c7DriftPatch.oldFileName.map stripAB) = false
    ∧ pathMissing (c7DriftPatch.oldFileName.map stripAB) = false
    ∧ fsRead c7Fs (joinSegs c4Cfg.repoSegs c7Q) = some "old"
    ∧ (fun (_ : String) (_ : FilePatch) => (none : Option String)) "old" c7DriftPatch = none
    ∧ ((applyLoop c4Cfg (fun _ _ => none) (c7DriftPatch :: [c7NewPatch]) c7Fs).1.2.1
        = ("Failed to apply patch to " ++ c7Q.raw ++ " - content may have changed")
            :: (applyLoop c4Cfg (fun _ _ => none) [c7NewPatch] c7Fs).1.2.1
      ∧ (applyLoop c4Cfg (fun _ _ => none) (c7DriftPatch :: [c7NewPatch]) c7Fs).1.1
          = (applyLoop c4Cfg (fun _ _ => none) [c7NewPatch] c7Fs).1.1
      ∧ (applyLoop c4Cfg (fun _ _ => none) (c7DriftPatch :: [c7NewPatch]) c7Fs).1.2.2
          = (applyLoop c4Cfg (fun _ _ => none) [c7NewPatch] c7Fs).1.2.2
      ∧ (applyLoop c4Cfg (fun _ _ => none) (c7DriftPatch :: [c7NewPatch]) c7Fs).2
          = (applyLoop c4Cfg (fun _ _ => none) [c7NewPatch] c7Fs).2
      ∧ (∀ (ps : List FilePatch) (fs0 : Fs),
          (applyDiff c4Cfg (fun _ _ => none) fs0 ps).1.success
            = (applyDiff c4Cfg (fun _ _ => none) fs0 ps).1.errors.isEmpty)
      ∧ (∀ (ps : List FilePatch) (fs0 : Fs),
          (applyLoop c4Cfg (fun _ _ => none) ps fs0).1.1
            + (applyLoop c4Cfg (fun _ _ => none) ps fs0).1.2.1.length
            + (applyLoop c4Cfg (fun _ _ => none) ps fs0).1.2.2.length = ps.length)) :=
  ⟨by decide, by decide, by decide, by decide, by decide, by decide, rfl,
    c7_apply_best_effort_per_file c4Cfg (fun _ _ => none) c7Fs c7DriftPatch
      [c7NewPatch] c7Q "old" (by decide) (by decide) (by decide) (by decide)
      (by decide) (by decide) rfl⟩

/-- A found newline index is within the search bound. -/
theorem lastNlIdx_le (l : List Char) (k i : Nat) (h : lastNlIdx l k = some i) :
    i ≤ k := by
  unfold lastNlIdx at h
  have hm := List.mem_of_find?_eq_some h
  rw [List.mem_reverse, List.mem_range] at hm
  omega

/-- A found newline index holds a newline. -/
theorem lastNlIdx_newline (l : List Char) (k i : Nat) (h : lastNlIdx l k = some i) :
    l.get? i = some '\n' := by
  unfold lastNlIdx at h
  have hp := List.find?_some h
  simpa using hp

/-- If no newline index was found, no position up to `k` holds one. -/
theorem lastNlIdx_none (l : List Char) (k : Nat) (h : lastNlIdx l k = none)
    (i : Nat) (hi : i ≤ k) : ¬ l.get? i = some '\n' := by
  unfold lastNlIdx at h
  rw [List.find?_eq_none] at h
  have hp := h i (by rw [List.mem_reverse, List.mem_range]; omega)
  simpa using hp

/-- The split point chosen by the chunking loop never exceeds the chunk
size. -/
theorem splitPoint_le (l : List Char) (k : Nat) : (lastNlIdx l k).getD k ≤ k := by
  cases h : lastNlIdx l k with
  | none => simp
  | some i => simpa using lastNlIdx_le l k i h

/-- Concatenating the emitted chunks reproduces the buffered log exactly. -/
theorem splitChunks_flatten (l : List Char) : (splitChunks l).flatten = l := by
  induction l using splitChunks.induct with
  | case1 l h sp ih =>
    rw [splitChunks, dif_pos h]
    rw [List.flatten_cons, ih, List.take_append_drop]
  | case2 l h he =>
    rw [splitChunks, dif_neg h, if_pos he]
    have hnil : l = [] := List.isEmpty_iff.mp he
    simp [hnil]
  | case3 l h he =>
    rw [splitChunks, dif_neg h, if_neg he]
    simp

/-- Every emitted chunk is nonempty and at most one character over the chunk
size (the hard-split case emits `MAX_CHUNK_SIZE + 1` characters because the
source slices through `splitPoint + 1`). -/
theorem splitChunks_bound (l : List Char) :
    ∀ c ∈ splitChunks l, c.length ≤ MAX_CHUNK_SIZE + 1 ∧ 0 < c.length := by
  induction l using splitChunks.induct with
  | case1 l h sp ih =>
    intro c hc
    rw [splitChunks, dif_pos h] at hc
    rcases List.mem_cons.mp hc with rfl | hc
    · have hsp := splitPoint_le l MAX_CHUNK_SIZE
      rw [List.length_take]
      constructor <;> omega
    · exact ih c hc
  | case2 l h he =>
    intro c hc
    rw [splitChunks, dif_neg h, if_pos he] at hc
    simp at hc
  | case3 l h he =>
    intro c hc
    rw [splitChunks, dif_neg h, if_neg he] at hc
    rw [List.mem_singleton] at hc
    subst hc
    have hnil : ¬ c = [] := by
      intro hn
      rw [hn] at he
      exact he rfl
    exact ⟨by omega, List.length_pos.mpr hnil⟩

/-- Membership in the `dropLast` of a cons. -/
theorem mem_dropLast_cons {α : Type} {c a : α} {as : List α}
    (h : c ∈ (a :: as).dropLast) : c = a ∨ c ∈ as.dropLast := by
  cases as with
  | nil => simp at h
  | cons b bs =>
    have hd : (a :: b :: bs).dropLast = a :: (b :: bs).dropLast := rfl
    rw [hd] at h
    exact List.mem_cons.mp h

/-- Every chunk before the final remainder either ends at a line boundary or
is a hard split of a line with no newline at all in its characters. -/
theorem splitChunks_line_boundary (l : List Char) :
    ∀ c ∈ (splitChunks l).dropLast,
      c.getLast? = some '\n'
      ∨ (c.length = MAX_CHUNK_SIZE + 1 ∧ ∀ ch ∈ c, (ch == '\n') = false) := by
  induction l using splitChunks.induct with
  | case1 l h sp ih =>
    intro c hc
    rw [splitChunks, dif_pos h] at hc
    rcases mem_dropLast_cons hc with rfl | hc
    · cases hfind : lastNlIdx l MAX_CHUNK_SIZE with
      | some i =>
        left
        have hile := lastNlIdx_le l _ i hfind
        have hnl := lastNlIdx_newline l _ i hfind
        rw [Option.getD_some]
        have hlen : (l.take (i + 1)).length = i + 1 := by
          rw [List.length_take]
          omega
        rw [List.getLast?_eq_getElem?, hlen, Nat.add_sub_cancel,
          List.getElem?_take, if_pos (Nat.lt_succ_self i), ← List.get?_eq_getElem?]
        exact hnl
      | none =>
        right
        rw [Option.getD_none]
        constructor
        · rw [List.length_take]
          omega
        · intro ch hch
          rcases List.mem_iff_getElem.mp hch with ⟨j, hj, hget⟩
          have hjb : j < MAX_CHUNK_SIZE + 1 ∧ j < l.length := by
            rw [List.length_take] at hj
            omega
          have hgl : l[j]? = some ch := by
            have h1 : (l.take (MAX_CHUNK_SIZE + 1))[j]? = some ch := by
              rw [List.getElem?_eq_getElem hj, hget]
            rw [List.getElem?_take, if_pos hjb.1] at h1
            exact h1
          have hne := lastNlIdx_none l MAX_CHUNK_SIZE hfind j (by omega)
          rw [List.get?_eq_getElem?] at hne
          rw [beq_eq_false_iff_ne]
          intro heq
          exact hne (by rw [hgl, heq])
    · exact ih c hc
  | case2 l h he =>
    intro c hc
    rw [splitChunks, dif_neg h, if_pos he] at hc
    simp at hc
  | case3 l h he =>
    intro c hc
    rw [splitChunks, dif_neg h, if_neg he] at hc
    simp at hc

/-- Claim C9: the flush chunking splits the buffered log into nonempty chunks
bounded by the ~1KB chunk size (at most one char over, from slicing through
the split point), concatenating the chunks in order reproduces the buffered
bytes exactly with no loss or duplication, and every non-final chunk either
ends with a newline or is a hard split containing no newline at all — this
covers in particular a 150KB single-line input, which is emitted as hard
1025-character chunks plus a remainder. -/
theorem c9_flush_chunks_sound (l : List Char) :
    (splitChunks l).flatten = l
    ∧ (∀ c ∈ splitChunks l, c.length ≤ MAX_CHUNK_SIZE + 1 ∧ 0 < c.length)
    ∧ (∀ c ∈ (splitChunks l).dropLast,
        c.getLast? = some '\n'
        ∨ (c.length = MAX_CHUNK_SIZE + 1 ∧ ∀ ch ∈ c, (ch == '\n') = false)) :=
  ⟨splitChunks_flatten l, splitChunks_bound l, splitChunks_line_boundary l⟩

end AgentCore

